import Mathlib

/-!
Verification development for the workspace-structure documentation generator
implemented in src/workspace/analyzer.ts.  The TypeScript code is shallowly
embedded: strings are Lean String or List Char, the JavaScript regular
expressions used by the analyzer are reproduced as executable matching
functions, the file system is an explicit inductive snapshot, and thrown
exceptions become early returns of the surrounding handler, mirroring where
the try/catch blocks of the source sit.
-/

namespace ProjectAnalyzer

/-! ## Regular-expression core for the ignore-pattern engine

The method isIgnored builds, for each pattern, the regular expression
  new RegExp(s, no flags) over an alternation of four start-anchored forms.
We embed the regex source text produced by the translation chain as a small
syntax tree and match it with Brzozowski derivatives.  Since each alternative
of the alternation is anchored with a caret, RegExp.test of the alternation
is the disjunction of the four individual anchored tests.
-/

/-- Syntax of the regex fragments the pattern translation can emit:
literal characters, the dot (any character except a line terminator, since
the RegExp carries no s flag), the class excluding the path separator,
sequencing, alternation and Kleene star. -/
inductive RE where
  | fail : RE
  | eps : RE
  | lit (c : Char) : RE
  | anyc : RE
  | notSlash : RE
  | seq (a b : RE) : RE
  | alt (a b : RE) : RE
  | star (a : RE) : RE
deriving Repr, DecidableEq

/-- Whether the regex accepts the empty word. -/
def nullable : RE → Bool
  | .fail => false
  | .eps => true
  | .lit _ => false
  | .anyc => false
  | .notSlash => false
  | .seq a b => nullable a && nullable b
  | .alt a b => nullable a || nullable b
  | .star _ => true

/-- JavaScript line terminators, which the unflagged dot does not match. -/
def isLineTerm (c : Char) : Bool :=
  c == '\n' || c == '\r' || c.val == 0x2028 || c.val == 0x2029

/-- The characters the JavaScript class backslash-s matches (the ASCII ones
plus the non-breaking space, the byte-order mark and the line and paragraph
separators; other rare Unicode spaces are not used by any input here). -/
def isJsSpace (c : Char) : Bool :=
  c == ' ' || c == '\t' || c == '\n' || c == '\r' ||
  c == '\x0b' || c == '\x0c' || c.val == 0xa0 || c.val == 0xfeff ||
  c.val == 0x2028 || c.val == 0x2029

/-- Brzozowski derivative of a regex by one character. -/
def deriv : RE → Char → RE
  | .fail, _ => .fail
  | .eps, _ => .fail
  | .lit c, a => if a == c then .eps else .fail
  | .anyc, a => if isLineTerm a then .fail else .eps
  | .notSlash, a => if a == '/' then .fail else .eps
  | .seq r s, a =>
      if nullable r then .alt (.seq (deriv r a) s) (deriv s a)
      else .seq (deriv r a) s
  | .alt r s, a => .alt (deriv r a) (deriv s a)
  | .star r, a => .seq (deriv r a) (.star r)

/-- Whole-word matching by iterated derivatives. -/
def reMatch (r : RE) : List Char → Bool
  | [] => nullable r
  | c :: cs => reMatch (deriv r c) cs

/-! ## Translation of an ignore pattern to regex source text

isIgnored performs, in this order, on the trimmed and slash-normalized
pattern: escape every dot, replace every occurrence of two consecutive
stars by a dot followed by a star, replace every remaining star by the
non-separator class followed by a star, and replace every question mark by
the non-separator class.  All four are global left-to-right non-overlapping
textual replacements, exactly as String.prototype.replace performs them.
-/

/-- replace(/\./g, "\\."). -/
def escDots : List Char → List Char
  | [] => []
  | '.' :: r => '\\' :: '.' :: escDots r
  | c :: r => c :: escDots r

/-- replace(/\*\*/g, ".*"), left to right, non-overlapping. -/
def starstar : List Char → List Char
  | [] => []
  | '*' :: '*' :: r => '.' :: '*' :: starstar r
  | c :: r => c :: starstar r

/-- replace(/\*/g, "[^/]*"). -/
def starRep : List Char → List Char
  | [] => []
  | '*' :: r => '[' :: '^' :: '/' :: ']' :: '*' :: starRep r
  | c :: r => c :: starRep r

/-- replace(/\?/g, "[^/]"). -/
def qRep : List Char → List Char
  | [] => []
  | '?' :: r => '[' :: '^' :: '/' :: ']' :: qRep r
  | c :: r => c :: qRep r

/-- The full replacement chain of isIgnored, lines 95-99 of analyzer.ts. -/
def translateChain (cs : List Char) : List Char :=
  qRep (starRep (starstar (escDots cs)))

/-- JavaScript String.prototype.trim on a character list. -/
def trimChars (cs : List Char) : List Char :=
  ((cs.dropWhile isJsSpace).reverse.dropWhile isJsSpace).reverse

/-- JavaScript String.prototype.trim on a string. -/
def strTrim (s : String) : String := String.mk (trimChars s.data)

/-- Trim the pattern, normalize backslashes to slashes, and strip a leading
and a trailing slash: lines 85-93 of analyzer.ts. -/
def prepPattern (pat : String) : List Char :=
  let n := (trimChars pat.data).map (fun c => if c = '\\' then '/' else c)
  let n := if n.head? = some '/' then n.tail else n
  if n.getLast? = some '/' then n.dropLast else n

/-- Compile the regex source text produced by the translation chain.
The only constructs that text can contain are literal characters, a
backslash escape, the bare dot introduced by the double-star replacement,
the class excluding the separator, and a postfix star.  Characters that
would be regex metacharacters beyond these are left unmodelled (none). -/
def compileREA : Nat → List Char → Option RE
  | _, [] => some .eps
  | 0, _ :: _ => none
  | f + 1, cs =>
    let atom : Option (RE × List Char) :=
      match cs with
      | [] => none
      | '\\' :: c :: rest => some (.lit c, rest)
      | '\\' :: [] => none
      | '[' :: '^' :: '/' :: ']' :: rest => some (.notSlash, rest)
      | '[' :: _ => none
      | '.' :: rest => some (.anyc, rest)
      | '*' :: _ => none
      | '?' :: _ => none
      | '(' :: _ => none
      | ')' :: _ => none
      | '|' :: _ => none
      | '+' :: _ => none
      | '^' :: _ => none
      | '$' :: _ => none
      | c :: rest => some (.lit c, rest)
    match atom with
    | none => none
    | some (a, rest) =>
      match rest with
      | '*' :: rest2 => (compileREA f rest2).map (fun r => .seq (.star a) r)
      | _ => (compileREA f rest).map (fun r => .seq a r)

/-- Compile an ignore pattern all the way to a regex tree. -/
def compilePattern (pat : String) : Option RE :=
  let src := translateChain (prepPattern pat)
  compileREA src.length src

/-- Anchor form one: the whole relative path matches the pattern. -/
def testFull (r : RE) (s : List Char) : Bool := reMatch r s

/-- Anchor form two, regex source caret P slash: some prefix of the path is
a match of the pattern followed by a separator. -/
def testStartDir (r : RE) (s : List Char) : Bool :=
  (List.range (s.length + 1)).any (fun n => reMatch (.seq r (.lit '/')) (s.take n))

/-- Anchor form three, regex source caret dot-star slash P dollar: the path
ends with a separator followed by a match of the pattern. -/
def testAnySuffix (r : RE) (s : List Char) : Bool :=
  reMatch (.seq (.seq (.star .anyc) (.lit '/')) r) s

/-- Anchor form four, regex source caret dot-star slash P slash dot-star
dollar: the pattern matches one full intermediate path segment group. -/
def testAnyDir (r : RE) (s : List Char) : Bool :=
  reMatch (.seq (.seq (.seq (.star .anyc) (.lit '/')) r) (.seq (.lit '/') (.star .anyc))) s

/-- Anchor form one at the level of pattern strings. -/
def anchorFull (pat path : String) : Bool :=
  match compilePattern pat with
  | some r => testFull r path.data
  | none => false

/-- Anchor form two at the level of pattern strings. -/
def anchorStartDir (pat path : String) : Bool :=
  match compilePattern pat with
  | some r => testStartDir r path.data
  | none => false

/-- Anchor form three at the level of pattern strings. -/
def anchorAnySuffix (pat path : String) : Bool :=
  match compilePattern pat with
  | some r => testAnySuffix r path.data
  | none => false

/-- Anchor form four at the level of pattern strings. -/
def anchorAnyDir (pat path : String) : Bool :=
  match compilePattern pat with
  | some r => testAnyDir r path.data
  | none => false

/-- One pattern tested against the normalized path: RegExp.test of the
four-way alternation built at lines 101-106 of analyzer.ts.  Every
alternative is start-anchored, so the test decomposes as a disjunction. -/
def patternMatches (pat path : String) : Bool :=
  match compilePattern pat with
  | some r =>
      testFull r path.data || testStartDir r path.data ||
      testAnySuffix r path.data || testAnyDir r path.data
  | none => false

/-- Backslash-to-slash normalization applied to the tested path. -/
def normalizeSeps (s : String) : String :=
  String.mk (s.data.map (fun c => if c = '\\' then '/' else c))

/-- isIgnored of analyzer.ts: normalize the path, then patterns.some. -/
def isIgnored (filePath : String) (patterns : List String) : Bool :=
  patterns.any (fun pat => patternMatches pat (normalizeSeps filePath))

/-- The translation chain on a whole pattern string, exposed for stating
what regex source a given pattern is compiled from. -/
def translatePattern (pat : String) : String :=
  String.mk (translateChain (prepPattern pat))

/-! ## Gitignore loading -/

/-- State of the ignore file at the workspace root.  The unreadable case is
the one where fs.access succeeds but fs.readFile throws: the flag
hasGitignore is already true and patterns stays empty. -/
inductive GitignoreState where
  | absent : GitignoreState
  | unreadable : GitignoreState
  | readable (content : String) : GitignoreState

/-- Fixed default exclusions, lines 58-74 of analyzer.ts. -/
def defaultPatterns : List String :=
  ["node_modules", ".git", "__pycache__", "*.pyc", "*.pyo", "*.pyd",
   ".Python", "*.so", "env", "venv", ".env", ".venv", "ENV", "env.bak",
   "venv.bak"]

/-- content.split of the newline separator. -/
def splitOnNl : List Char → List (List Char)
  | [] => [[]]
  | '\n' :: r => [] :: splitOnNl r
  | c :: r =>
      match splitOnNl r with
      | l :: ls => (c :: l) :: ls
      | [] => [[c]]

/-- Line filter of loadGitignorePatterns: keep trimmed lines that are
non-empty, no comments, and no negations. -/
def parseGitignore (content : String) : List String :=
  ((splitOnNl content.data).map (fun l => String.mk (trimChars l))).filter
    (fun l => !(l.data.isEmpty || l.data.head? == some '#' || l.data.head? == some '!'))

/-- loadGitignorePatterns of analyzer.ts. -/
def loadGitignorePatterns : GitignoreState → List String
  | .absent => ".*" :: defaultPatterns
  | .unreadable => defaultPatterns
  | .readable c => parseGitignore c ++ defaultPatterns

/-! ## Structural extractor: shared scanning machinery

analyzeFileContent drives a fixed set of global regexes over the file
content with matchAll or an exec loop.  We embed each regex as a function
that attempts a match at a given position and, on success, returns its
payload together with the unconsumed rest of the input.  A generic scanner
then replays the global-flag search: try the current position, emit the
payload and continue after the match on success, advance one character on
failure.  Fuel equal to the input length plus one suffices because every
successful match of these regexes consumes at least one character.
-/

/-- Match a literal character sequence, returning the rest. -/
def litP : List Char → List Char → Option (List Char)
  | [], cs => some cs
  | _ :: _, [] => none
  | l :: ls, c :: cs => if c == l then litP ls cs else none

/-- Backslash-s-star: consume as much whitespace as possible.  The regexes
embedded here always follow it with a non-space requirement, so the greedy
consumption needs no backtracking. -/
def ws0 (cs : List Char) : List Char := cs.dropWhile isJsSpace

/-- Backslash-s-plus: at least one whitespace character. -/
def ws1 : List Char → Option (List Char)
  | [] => none
  | c :: cs => if isJsSpace c then some ((c :: cs).dropWhile isJsSpace) else none

/-- An identifier: one character satisfying the first predicate, then the
longest run satisfying the second.  Returns the identifier and the rest. -/
def identP (pfirst prest : Char → Bool) : List Char → Option (String × List Char)
  | [] => none
  | c :: cs =>
      if pfirst c then some (String.mk (c :: cs.takeWhile prest), cs.dropWhile prest)
      else none

/-- First character class of a JavaScript identifier in these regexes. -/
def jsIdFirst (c : Char) : Bool := c.isAlpha || c == '_' || c == '$'

/-- Continuation class of a JavaScript identifier in these regexes. -/
def jsIdRest (c : Char) : Bool := c.isAlpha || c.isDigit || c == '_' || c == '$'

/-- First character class of a Python identifier in these regexes. -/
def pyIdFirst (c : Char) : Bool := c.isAlpha || c == '_'

/-- Continuation class of a Python identifier in these regexes. -/
def pyIdRest (c : Char) : Bool := c.isAlpha || c.isDigit || c == '_'

/-- The class backslash-w. -/
def isWordChar (c : Char) : Bool := c.isAlpha || c.isDigit || c == '_'

/-- Greedy bracket-free argument list: consume through the class excluding
the closing parenthesis, then require the closing parenthesis. -/
def argsP (cs : List Char) : Option (List Char) :=
  litP [')'] (cs.dropWhile (fun c => !(c == ')')))

/-- Generic matchAll scanner for regexes without a caret anchor. -/
def scanAllF {α : Type} (tryf : List Char → Option (α × List Char)) :
    Nat → List Char → List α
  | 0, _ => []
  | _ + 1, [] => []
  | f + 1, c :: cs =>
      match tryf (c :: cs) with
      | some (a, rest) => a :: scanAllF tryf f rest
      | none => scanAllF tryf f cs

/-- Generic matchAll scanner for caret-anchored regexes under the m flag:
attempts are made only at the start of the input or right after a line
terminator.  All the anchored regexes embedded here end their matches with
a character that is not a line terminator, so scanning resumes in the
not-at-line-start state after a successful match. -/
def scanLinesF {α : Type} (tryf : List Char → Option (α × List Char)) :
    Nat → Bool → List Char → List α
  | 0, _, _ => []
  | _ + 1, _, [] => []
  | f + 1, atLS, c :: cs =>
      if atLS then
        match tryf (c :: cs) with
        | some (a, rest) => a :: scanLinesF tryf f false rest
        | none => scanLinesF tryf f (isLineTerm c) cs
      else scanLinesF tryf f (isLineTerm c) cs

/-- Under the m flag a dollar holds at the end of input or before a line
terminator. -/
def atDollar : List Char → Bool
  | [] => true
  | c :: _ => isLineTerm c

/-! ## Python profile -/

/-- Python function regex: caret, def, spaces, identifier, optional spaces,
opening parenthesis; capture the identifier. -/
def tryPyFunction (cs : List Char) : Option (String × List Char) := do
  let r1 ← litP ("def".data) cs
  let r2 ← ws1 r1
  let (nm, r3) ← identP pyIdFirst pyIdRest r2
  let r4 ← litP ['('] (ws0 r3)
  pure (nm, r4)

/-- Python class regex: caret, class, spaces, identifier, optional spaces,
an optional parenthesized base list, optional spaces, colon.  The engine
tries the base list first and falls back to its absence, exactly like the
optional group. -/
def tryPyClass (cs : List Char) : Option (String × List Char) := do
  let r1 ← litP ("class".data) cs
  let r2 ← ws1 r1
  let (nm, r3) ← identP pyIdFirst pyIdRest r2
  let r4 := ws0 r3
  let withBases : Option (List Char) := do
    let r5 ← litP ['('] r4
    let r6 ← argsP r5
    litP [':'] (ws0 r6)
  match withBases with
  | some r => pure (nm, r)
  | none => do
      let r ← litP [':'] r4
      pure (nm, r)

/-- Python method regex: caret, exactly four spaces, def, spaces,
identifier, optional spaces, argument list, optional spaces, colon. -/
def tryPyMethod (cs : List Char) : Option (String × List Char) := do
  let r1 ← litP ("    def".data) cs
  let r2 ← ws1 r1
  let (nm, r3) ← identP pyIdFirst pyIdRest r2
  let r4 ← litP ['('] (ws0 r3)
  let r5 ← argsP r4
  let r6 ← litP [':'] (ws0 r5)
  pure (nm, r6)

/-- All splits of a leading non-space word, longest first: the candidate
consumptions of one greedy class-plus of non-space characters in the order
the backtracking engine visits them. -/
def wordSplits (cs : List Char) : List (List Char × List Char) :=
  let run := cs.takeWhile (fun c => !isJsSpace c)
  (List.range run.length).map (fun k =>
    let n := run.length - k
    (run.take n, cs.drop n))

/-- Candidate consumptions of the starred group comma, optional spaces,
word, in the order the engine visits them: maximal repetitions first, each
repetition preferring the longest word, the empty consumption last. -/
def starSplits : Nat → List Char → List (List Char × List Char)
  | 0, cs => [([], cs)]
  | f + 1, cs =>
      (match cs with
       | ',' :: afterC =>
           let sp := afterC.takeWhile isJsSpace
           let r1 := afterC.dropWhile isJsSpace
           (wordSplits r1).flatMap (fun wr =>
             (starSplits f wr.2).map (fun sr => (',' :: (sp ++ wr.1 ++ sr.1), sr.2)))
       | _ => []) ++ [([], cs)]

/-- The trailing optional alias clause, spaces as spaces word, followed by
the dollar; when the clause cannot complete, the dollar alone is required.
Returns the captured alias, if any, and the rest. -/
def asClauseOrEnd (cs : List Char) : Option (Option String × List Char) :=
  let withAs : Option (Option String × List Char) := do
    let r1 ← ws1 cs
    let r2 ← litP ("as".data) r1
    let r3 ← ws1 r2
    let w := r3.takeWhile (fun c => !isJsSpace c)
    if w.isEmpty then none
    else
      let r4 := r3.drop w.length
      if atDollar r4 then pure (some (String.mk w), r4) else none
  match withAs with
  | some r => some r
  | none => if atDollar cs then some (none, cs) else none

/-- One attempted match of the Python import regex at a line start:
optional from-module group, import keyword, comma-separated name list with
backtracking between the list and the optional alias, and a dollar.
Captures (from-module, raw name list text, alias). -/
def tryPyImport (cs : List Char) : Option ((Option String × String × Option String) × List Char) :=
  let afterNames : List Char → Option ((String × Option String) × List Char) := fun body =>
    let cands := (wordSplits body).flatMap (fun wr =>
      (starSplits wr.2.length wr.2).map (fun sr => (wr.1 ++ sr.1, sr.2)))
    cands.firstM (fun nr => do
      let (al, rest) ← asClauseOrEnd nr.2
      pure ((String.mk nr.1, al), rest))
  let importPart : Option String → List Char → Option ((Option String × String × Option String) × List Char) :=
    fun fromMod body => do
      let r1 ← litP ("import".data) body
      let r2 ← ws1 r1
      let ((names, al), rest) ← afterNames r2
      pure ((fromMod, names, al), rest)
  let withFrom : Option ((Option String × String × Option String) × List Char) := do
    let r1 ← litP ("from".data) cs
    let r2 ← ws1 r1
    let w := r2.takeWhile (fun c => !isJsSpace c)
    if w.isEmpty then none
    else do
      let r3 ← ws1 (r2.drop w.length)
      importPart (some (String.mk w)) r3
  match withFrom with
  | some r => some r
  | none => importPart none cs

/-- The comma split used to expand one import name list. -/
def splitOnComma : List Char → List (List Char)
  | [] => [[]]
  | ',' :: r => [] :: splitOnComma r
  | c :: r =>
      match splitOnComma r with
      | l :: ls => (c :: l) :: ls
      | [] => [[c]]

/-- Expansion of one Python import match, lines 191-199 of analyzer.ts: the
comma-split trimmed names each become one entry carrying the module path
and, when present, the alias. -/
def expandImportMatch (m : Option String × String × Option String) : List String :=
  let fromModule := match m.1 with
    | some f => strTrim f ++ "."
    | none => ""
  let asName := match m.2.2 with
    | some a => " as " ++ strTrim a
    | none => ""
  ((splitOnComma m.2.1.data).map (fun l => String.mk (trimChars l))).map
    (fun name => "import " ++ fromModule ++ name ++ asName)

/-- The spread of a Set built from a list, with the already seen elements
accumulated: first occurrences in first-seen order. -/
def setDedupA (seen : List String) : List String → List String
  | [] => []
  | x :: xs =>
      if seen.contains x then setDedupA seen xs
      else x :: setDedupA (x :: seen) xs

/-- The spread of a Set built from a list: first occurrences in order. -/
def setDedup (l : List String) : List String := setDedupA [] l

/-! ## C-family profile -/

/-- Try the parts of a sequence in order, OrElse over the full
continuation: the backtracking order of a chain of optional groups. -/
def firstSome {α : Type} : List (Option α) → Option α
  | [] => none
  | some a :: _ => some a
  | none :: rest => firstSome rest

/-- Consume one keyword of an alternation followed by mandatory space. -/
def kwSp (kw : String) (cs : List Char) : Option (List Char) := do
  let r ← litP kw.data cs
  ws1 r

/-- The states reachable by the starred group of one arbitrary character
followed by a negative lookahead for the word from, shortest consumption
first.  The lookahead is evaluated after the character is consumed. -/
def lookStates : List Char → List (List Char)
  | [] => [[]]
  | c :: r =>
      (c :: r) ::
      (if (litP ("from".data) r).isSome then [] else lookStates r)

/-- The closing part shared by both import branches: spaces, from, spaces,
a quote, a nonempty quote-free body, a quote.  Either quote character may
open or close, as in the character class of the regex. -/
def fromClause (cs : List Char) : Option (List Char) := do
  let r1 ← ws1 cs
  let r2 ← litP ("from".data) r1
  let r3 ← ws1 r2
  match r3 with
  | q :: r4 =>
      if q == '"' || q == '\'' then
        let body := r4.takeWhile (fun c => !(c == '"' || c == '\''))
        if body.isEmpty then none
        else
          match r4.drop body.length with
          | q2 :: r5 => if q2 == '"' || q2 == '\'' then some r5 else none
          | [] => none
      else none
  | [] => none

/-- One attempted match of the TypeScript import regex at a line start.
First alternative: import, spaces, then either a braced name group (with
backtracking across the lookahead star against the closing spaces and
brace) or a star-as binding, then the from clause.  Second alternative:
import, spaces, a word, then the from clause.  The payload is the whole
matched text. -/
def tryCImport (cs : List Char) : Option (String × List Char) :=
  let branch1 : Option (List Char) := do
    let r1 ← litP ("import".data) cs
    let r2 ← ws1 r1
    let group : Option (List Char) :=
      match litP ['{'] r2 with
      | some r3 =>
          firstSome ((lookStates r3).reverse.map (fun st => do
            let r4 ← litP ['}'] (ws0 st)
            fromClause r4))
      | none => do
          let r3 ← litP ['*'] r2
          let r4 ← ws1 r3
          let r5 ← litP ("as".data) r4
          let r6 ← ws1 r5
          match r6 with
          | c :: rest =>
              if isWordChar c then fromClause (rest.dropWhile isWordChar)
              else none
          | [] => none
    group
  let branch2 : Option (List Char) := do
    let r1 ← litP ("import".data) cs
    let r2 ← ws1 r1
    match r2 with
    | c :: rest =>
        if isWordChar c then fromClause (rest.dropWhile isWordChar)
        else none
    | [] => none
  match (match branch1 with | some r => some r | none => branch2) with
  | some rest => some (String.mk (cs.take (cs.length - rest.length)), rest)
  | none => none

/-- The arrow-assignment right-hand side of the function regex: equals,
optional async, parenthesized argument list, arrow. -/
def arrowRhs (cs : List Char) : Option (List Char) := do
  let r1 ← litP ['='] (ws0 cs)
  let r2 := ws0 r1
  let afterAsync :=
    match kwSp ("async") r2 with
    | some r => r
    | none => r2
  let r3 ← litP ['('] afterAsync
  let r4 ← argsP r3
  litP ['='] (ws0 r4) >>= litP ['>']

/-- The inner alternation of the first function-regex branch: a named
function keyword form capturing group one, or a binding-keyword arrow
assignment capturing group two. -/
def funInner (cs : List Char) : Option (Option String × List Char) :=
  let alt1 : Option (Option String × List Char) := do
    let r1 ← kwSp ("function") cs
    let (nm, r2) ← identP jsIdFirst jsIdRest r1
    pure (some nm, r2)
  let alt2 : Option (Option String × List Char) := do
    let r1 ← firstSome [kwSp ("const") cs, kwSp ("let") cs, kwSp ("var") cs]
    let (nm, r2) ← identP jsIdFirst jsIdRest r1
    let r3 ← arrowRhs r2
    pure (some nm, r3)
  match alt1 with
  | some r => some r
  | none => alt2

/-- One attempted match of the TypeScript function regex.  Branch A:
optional export, optional async, then the inner alternation; the four
optional-group combinations are tried in the backtracking order.  Branch B:
optional async, function keyword, name, optional spaces, parenthesis; it
fills only group three, so the analyzer pushes no name for it. -/
def tryCFunction (cs : List Char) : Option (Option String × List Char) :=
  let withPre : Option (List Char) → Option (Option String × List Char) := fun pre => do
    let r ← pre
    funInner r
  let branchA := firstSome
    [withPre (do kwSp ("export") cs >>= kwSp ("async")),
     withPre (kwSp ("export") cs),
     withPre (kwSp ("async") cs),
     withPre (some cs)]
  let branchB : Option (Option String × List Char) := do
    let r0 := match kwSp ("async") cs with
      | some r => r
      | none => cs
    let r1 ← kwSp ("function") r0
    let (_, r2) ← identP jsIdFirst jsIdRest r1
    let r3 ← litP ['('] (ws0 r2)
    pure ((none : Option String), r3)
  match branchA with
  | some r => some r
  | none => branchB

/-- One attempted match of the TypeScript class regex: optional export,
class keyword, spaces, identifier. -/
def tryCClass (cs : List Char) : Option (String × List Char) :=
  let go : List Char → Option (String × List Char) := fun r => do
    let r1 ← kwSp ("class") r
    identP jsIdFirst jsIdRest r1
  match (do let r ← kwSp ("export") cs; go r) with
  | some r => some r
  | none => go cs

/-- One attempted match of the TypeScript method regex: optional access
keyword, optional spaces, optional async, identifier, optional spaces,
argument list, optional spaces, opening brace. -/
def tryCMethod (cs : List Char) : Option (String × List Char) :=
  let after : List Char → Option (String × List Char) := fun r => do
    let r1 := ws0 r
    let r2 :=
      match kwSp ("async") r1 with
      | some r => r
      | none => r1
    let (nm, r3) ← identP jsIdFirst jsIdRest r2
    let r4 ← litP ['('] (ws0 r3)
    let r5 ← argsP r4
    let r6 ← litP ['\x7b'] (ws0 r5)
    pure (nm, r6)
  firstSome
    [(litP ("public".data) cs).bind after,
     (litP ("private".data) cs).bind after,
     (litP ("protected".data) cs).bind after,
     after cs]

/-- One attempted match of the export regex at a line start: export,
spaces, one declaration keyword, spaces, identifier. -/
def tryCExport (cs : List Char) : Option (String × List Char) := do
  let r1 ← kwSp ("export") cs
  let r2 ← firstSome
    [kwSp ("const") r1, kwSp ("let") r1, kwSp ("var") r1,
     kwSp ("function") r1, kwSp ("class") r1, kwSp ("interface") r1,
     kwSp ("type") r1]
  identP jsIdFirst jsIdRest r2

/-- One attempted match of the React component regex: a binding or
function keyword, spaces, a capitalized identifier, optional spaces,
equals, optional spaces, then a parenthesized list followed by an arrow or
an opening brace. -/
def tryCComponent (cs : List Char) : Option (String × List Char) := do
  let r1 ← firstSome
    [kwSp ("const") cs, kwSp ("let") cs, kwSp ("var") cs, kwSp ("function") cs]
  let (nm, r2) ← identP (fun c => c.isUpper) jsIdRest r1
  let r3 ← litP ['='] (ws0 r2)
  let r4 := ws0 r3
  let paren : Option (List Char) := do
    let r5 ← litP ['('] r4
    argsP r5
  let r6 ← paren
  let tail1 : Option (List Char) := litP ['='] (ws0 r6) >>= litP ['>']
  let r7 ← match tail1 with
    | some r => some r
    | none => litP ['\x7b'] (ws0 r6)
  pure (nm, r7)

/-! ## analyzeFileContent -/

/-- The per-file record of extracted structural facts. -/
structure FileAnalysis where
  imports : List String
  functions : List String
  classes : List String
  exports : List String
  methods : List String
  components : List String
deriving Repr, DecidableEq

/-- The record every unrecognized extension receives. -/
def emptyAnalysis : FileAnalysis :=
  { imports := [], functions := [], classes := [], exports := [],
    methods := [], components := [] }

/-- Scanner fuel that always suffices: every successful match consumes at
least one character. -/
def fuelFor (content : String) : Nat := content.data.length + 1

/-- Raw TypeScript import match texts, in match order. -/
def cImportsRaw (content : String) : List String :=
  scanLinesF tryCImport (fuelFor content) true content.data

/-- Raw TypeScript function captures in match order; branch B matches
carry no capture. -/
def cFunctionsRaw (content : String) : List (Option String) :=
  scanAllF tryCFunction (fuelFor content) content.data

/-- Raw TypeScript class captures. -/
def cClassesRaw (content : String) : List String :=
  scanAllF tryCClass (fuelFor content) content.data

/-- Raw TypeScript method-position captures, before the keyword and
capital-letter filter. -/
def cMethodsRaw (content : String) : List String :=
  scanAllF tryCMethod (fuelFor content) content.data

/-- Raw export captures. -/
def cExportsRaw (content : String) : List String :=
  scanLinesF tryCExport (fuelFor content) true content.data

/-- Raw component captures. -/
def cComponentsRaw (content : String) : List String :=
  scanAllF tryCComponent (fuelFor content) content.data

/-- The fixed method block-list of analyzer.ts line 157. -/
def methodBlocklist : List String :=
  ["constructor", "if", "for", "while", "switch", "catch"]

/-- The unanchored test of the exclusion regex open-bracket A-Z
close-bracket followed by a starred alphanumeric class: it succeeds exactly
when the name contains an uppercase letter anywhere. -/
def hasUpperAnywhere (nm : String) : Bool := nm.data.any Char.isUpper

/-- The filter applied to each raw method capture before it is pushed. -/
def methodKept (nm : String) : Bool :=
  !(methodBlocklist.contains nm) && !hasUpperAnywhere nm

/-- The C-family extraction profile, lines 122-184 of analyzer.ts. -/
def cAnalyze (content : String) : FileAnalysis :=
  { imports := (cImportsRaw content).map strTrim
    functions := (cFunctionsRaw content).filterMap id
    classes := cClassesRaw content
    exports := cExportsRaw content
    methods := (cMethodsRaw content).filter methodKept
    components := cComponentsRaw content }

/-- Raw Python import matches. -/
def pyImportsRaw (content : String) : List (Option String × String × Option String) :=
  scanLinesF tryPyImport (fuelFor content) true content.data

/-- Raw Python function captures. -/
def pyFunctionsRaw (content : String) : List String :=
  scanLinesF tryPyFunction (fuelFor content) true content.data

/-- Raw Python class captures. -/
def pyClassesRaw (content : String) : List String :=
  scanLinesF tryPyClass (fuelFor content) true content.data

/-- Raw Python method captures. -/
def pyMethodsRaw (content : String) : List String :=
  scanLinesF tryPyMethod (fuelFor content) true content.data

/-- The Python extraction profile, lines 185-228 of analyzer.ts: imports
are expanded per name with no deduplication; functions and methods are
spread through a Set; classes are pushed as matched. -/
def pyAnalyze (content : String) : FileAnalysis :=
  { imports := (pyImportsRaw content).flatMap expandImportMatch
    functions := setDedup (pyFunctionsRaw content)
    classes := pyClassesRaw content
    exports := []
    methods := setDedup (pyMethodsRaw content)
    components := [] }

/-- The extensions served by the C-family profile. -/
def cExts : List String := [".js", ".ts", ".jsx", ".tsx"]

/-- analyzeFileContent of analyzer.ts: dispatch on the extension. -/
def analyzeFileContent (content ext : String) : FileAnalysis :=
  if cExts.contains ext then cAnalyze content
  else if ext = ".py" then pyAnalyze content
  else emptyAnalysis

/-! ## File-system snapshot and the directory scanner -/

/-- A snapshot of one directory entry as the scanner can observe it:
a file whose read may fail, an entry whose stat call fails, or a directory
whose listing read may fail.  Listings carry entries in the arbitrary order
the underlying enumeration yields them. -/
inductive FSNode where
  | file (readErr : Bool) (content : String) : FSNode
  | statErr : FSNode
  | dir (readdirErr : Bool) (entries : List (String × FSNode)) : FSNode

/-- Node extname on a plain entry name: the suffix from the last dot,
unless that dot is the first character or absent. -/
def extname (name : String) : String :=
  let cs := name.data
  let idxs := (List.range cs.length).filter (fun i => cs.getD i ' ' = '.')
  match idxs.getLast? with
  | some i => if i = 0 then "" else String.mk (cs.drop i)
  | none => ""

/-- The extensions whose files are read and analyzed by scanDirectory. -/
def analyzedExts : List String := [".js", ".ts", ".jsx", ".tsx", ".vue", ".py"]

/-- Whether scanDirectory reads and analyzes a file of this name. -/
def extRecognized (name : String) : Bool := analyzedExts.contains (extname name)

/-- Two spaces per indentation level. -/
def indentOf (level : Nat) : String := String.join (List.replicate level "  ")

/-- One labeled indented list of formatAnalysis, emitted only when
non-empty. -/
def bulletBlock (label : String) (items : List String) (indent : String) : String :=
  if items.length > 0 then
    indent ++ "  - " ++ label ++ ":\n" ++
    String.join (items.map (fun it => indent ++ "    - " ++ it ++ "\n"))
  else ""

/-- formatAnalysis of analyzer.ts, fields in its fixed emission order. -/
def formatAnalysis (a : FileAnalysis) (indent : String) : String :=
  bulletBlock ("Imports") a.imports indent ++
  bulletBlock ("Exports") a.exports indent ++
  bulletBlock ("Functions") a.functions indent ++
  bulletBlock ("Classes") a.classes indent ++
  bulletBlock ("Methods") a.methods indent ++
  bulletBlock ("Components") a.components indent

/-- Lexicographic order on the character lists of two names, the
comparison the default Array.prototype.sort applies to strings (code units
and code points order identically on the inputs of interest). -/
def strLeB : List Char → List Char → Bool
  | [], _ => true
  | _ :: _, [] => false
  | a :: as, b :: bs => if a = b then strLeB as bs else decide (a.val < b.val)

/-- Name order on directory entries. -/
def entLe (e f : String × FSNode) : Bool := strLeB e.1.data f.1.data

/-- Insertion of one entry into a name-sorted listing. -/
def insertEnt (e : String × FSNode) : List (String × FSNode) → List (String × FSNode)
  | [] => [e]
  | f :: fs => if entLe e f then e :: f :: fs else f :: insertEnt e fs

/-- files.sort(): the listing ordered lexicographically by name.  On the
duplicate-free names a real file system produces, any comparison sort
yields this same ordering. -/
def sortEnt : List (String × FSNode) → List (String × FSNode)
  | [] => []
  | e :: es => insertEnt e (sortEnt es)

/-- The body of scanDirectory: process the sorted entries of one
directory.  The try/catch of scanDirectory wraps the whole loop, so a
failing stat or a failing recognized-file read ends the processing of this
listing and the text accumulated so far is returned; the name line of a
file is appended before its content read, so it survives that read
failing.  The relative path computed for the ignore test is the entry name
itself.  A child directory is scanned with the catch of its own
invocation, so nothing propagates to the parent.  One unit of fuel is spent
per processed entry and per descent, so fuel at least the total entry count
of the snapshot reproduces the unbounded recursion of the source. -/
def scanEntriesF : Nat → List String → Nat → List (String × FSNode) → String
  | _, _, _, [] => ""
  | 0, _, _, _ :: _ => ""
  | f + 1, pats, lvl, (name, node) :: rest =>
    match node with
    | .statErr => ""
    | .dir derr dents =>
      if isIgnored name pats then scanEntriesF f pats lvl rest
      else
        indentOf lvl ++ "- 📁 " ++ name ++ "/\n" ++
        (if derr then "" else scanEntriesF f pats (lvl + 1) (sortEnt dents)) ++
        scanEntriesF f pats lvl rest
    | .file rerr c =>
      if isIgnored name pats then scanEntriesF f pats lvl rest
      else
        let line := indentOf lvl ++ "- 📄 " ++ name ++ "\n"
        if extRecognized name then
          if rerr then line
          else
            line ++ formatAnalysis (analyzeFileContent c (extname name)) (indentOf lvl) ++
            scanEntriesF f pats lvl rest
        else line ++ scanEntriesF f pats lvl rest

/-- scanDirectory on a node: a failing listing read is caught and yields
the empty accumulation; a path that is not a directory fails its listing
read the same way. -/
def scanDirectoryF (fuel : Nat) (pats : List String) (lvl : Nat) : FSNode → String
  | .dir derr dents => if derr then "" else scanEntriesF fuel pats lvl (sortEnt dents)
  | _ => ""

mutual
/-- Weight of a snapshot node: fuel that the fuelled scanner never
exhausts, since one unit is spent per entry and per descent. -/
def nodeFuel : FSNode → Nat
  | .file _ _ => 1
  | .statErr => 1
  | .dir _ es => entsFuel es + 1

/-- Total weight of a listing. -/
def entsFuel : List (String × FSNode) → Nat
  | [] => 0
  | e :: es => nodeFuel e.2 + entsFuel es
end

/-! ## Document assembler -/

/-- The fields of package.json the assembler renders.  JSON parsing itself
is outside the embedding; a parse that throws is represented by the parsed
field being none while the raw content is present. -/
structure PkgInfo where
  name : String
  version : String
  description : Option String

/-- The observable workspace snapshot generateStructure runs on: the root
directory node, the gitignore state, the raw package.json content with its
abstracted parse, and the two other well-known configuration files.  A
read failure on an optional configuration file behaves like its absence
(logged and skipped), so both are the none case. -/
structure WorkspaceFS where
  root : FSNode
  gitignore : GitignoreState
  pkgRaw : Option String
  pkgParsed : Option PkgInfo
  requirementsTxt : Option String
  pyprojectToml : Option String

/-- The Project Info section: emitted only when package.json exists and
parses; the description falls back on the default when absent or empty,
mirroring the falsy-or of the template literal. -/
def pkgSection (w : WorkspaceFS) : String :=
  match w.pkgRaw, w.pkgParsed with
  | some _, some p =>
      "## Project Info\n- Name: " ++ p.name ++ "\n- Version: " ++ p.version ++
      "\n- Description: " ++
      (match p.description with
       | some d => if d = "" then "No description provided" else d
       | none => "No description provided") ++ "\n\n"
  | _, _ => ""

/-- One embedded configuration file, fenced under its own heading. -/
def configEntry (nm : String) (c : Option String) : String :=
  match c with
  | some s => "### " ++ nm ++ "\n```\n" ++ s ++ "\n```\n\n"
  | none => ""

/-- The Configuration Files section over the fixed file list. -/
def configSection (w : WorkspaceFS) : String :=
  "## Configuration Files\n\n" ++
  configEntry ("requirements.txt") w.requirementsTxt ++
  configEntry ("pyproject.toml") w.pyprojectToml ++
  configEntry ("package.json") w.pkgRaw

/-- analyzeWorkspace of analyzer.ts: heading and disclaimer, project info,
configuration files, then the scanned file structure.  Every inner error is
caught where the source catches it, so this function is total. -/
def analyzeWorkspace (w : WorkspaceFS) : String :=
  "# Workspace Structure\n\nFiles listed in .gitignore will be excluded.\n\n" ++
  pkgSection w ++ configSection w ++ "## File Structure\n\n" ++
  scanDirectoryF (nodeFuel w.root) (loadGitignorePatterns w.gitignore) 0 w.root

/-- generateStructure of analyzer.ts, observed through the file write: the
returned value is the content written to the output file, none standing
for no write.  Since analyzeWorkspace cannot throw, the write stage is
always reached (failures of the write itself are external collaborators
outside this core). -/
def generateStructure (w : WorkspaceFS) : Option String :=
  some (analyzeWorkspace w)

/-! ## Specification-side vocabulary

Small executable predicates used only to state properties: substring
presence, bracket balance, and whitespace-only content. -/

/-- Whether t occurs as a contiguous substring of s. -/
def strContains (s t : String) : Bool :=
  (List.range (s.data.length + 1)).any (fun i => t.data.isPrefixOf (s.data.drop i))

/-- Balance check for one bracket pair. -/
def balancedFrom (opc clc : Char) : List Char → Nat → Bool
  | [], 0 => true
  | [], _ + 1 => false
  | c :: r, d =>
      if c = opc then balancedFrom opc clc r (d + 1)
      else if c = clc then
        match d with
        | 0 => false
        | d + 1 => balancedFrom opc clc r d
      else balancedFrom opc clc r d

/-- Whether the parentheses of a string are balanced. -/
def parenBalanced (s : String) : Bool := balancedFrom '(' ')' s.data 0

/-- Whether the braces of a string are balanced. -/
def braceBalanced (s : String) : Bool := balancedFrom '\x7b' '\x7d' s.data 0

/-- Content consisting of whitespace only (including the empty content). -/
def wsOnly (cs : List Char) : Bool := cs.all isJsSpace

/-! ## Supporting lemmas for the ignore engine claims -/

/-- RegExp.test of the four-way start-anchored alternation decomposes into
the disjunction of the four anchored tests. -/
theorem patternMatches_eq_anchors (pat path : String) :
    patternMatches pat path =
      (anchorFull pat path || anchorStartDir pat path ||
       anchorAnySuffix pat path || anchorAnyDir pat path) := by
  unfold patternMatches anchorFull anchorStartDir anchorAnySuffix anchorAnyDir
  cases compilePattern pat <;> simp

/-- Membership-style characterization of isIgnored. -/
theorem isIgnored_eq_exists (path : String) (pats : List String) :
    isIgnored path pats = true ↔
      ∃ q ∈ pats, patternMatches q (normalizeSeps path) = true := by
  unfold isIgnored
  exact List.any_eq_true

/-! ## C1 -/

/-- C1: the claim states that the translation maps a double star to a
fragment matching any character sequence including separators, so that
a/**/b matches a/x/y/b.  In the code the double-star replacement emits a
dot and a star, and the subsequent single-star replacement rewrites that
star again, collapsing the fragment to a dot followed by a starred
non-separator class; consequently a/**/b matches only one extra leading
character, not arbitrarily many separators, and a/x/y/b is not matched
while a/x/b is.  This evaluates the embedded translation and matcher at
the failing input. -/
theorem doubleStar_translation_collapses :
    translatePattern ("a/**/b") = "a/.[^/]*/b" ∧
    isIgnored ("a/x/y/b") ["a/**/b"] = false ∧
    isIgnored ("a/x/b") ["a/**/b"] = true := by
  refine ⟨by decide, by decide, by decide⟩

/-! ## C2 -/

/-- C2: a normalized path is ignored exactly when some pattern of the rule
set matches it under at least one of the four anchor forms, and a matching
pattern makes the path ignored whatever patterns follow it in the set
(first match short-circuits). -/
theorem isIgnored_anchor_spec (path : String) (pats pre post : List String)
    (pat : String) (h : patternMatches pat (normalizeSeps path) = true) :
    (isIgnored path pats = true ↔
      ∃ q ∈ pats,
        (anchorFull q (normalizeSeps path) || anchorStartDir q (normalizeSeps path) ||
         anchorAnySuffix q (normalizeSeps path) || anchorAnyDir q (normalizeSeps path)) = true)
    ∧ isIgnored path (pre ++ pat :: post) = true := by
  constructor
  · rw [isIgnored_eq_exists]
    constructor
    · rintro ⟨q, hq, hm⟩
      exact ⟨q, hq, by rw [← patternMatches_eq_anchors]; exact hm⟩
    · rintro ⟨q, hq, hm⟩
      exact ⟨q, hq, by rw [patternMatches_eq_anchors]; exact hm⟩
  · rw [isIgnored_eq_exists]
    exact ⟨pat, by simp, h⟩

/-- Witness for C2 at a concrete rule set and path. -/
theorem isIgnored_anchor_spec_witness :
    patternMatches ("node_modules") (normalizeSeps ("node_modules/pkg")) = true ∧
    isIgnored ("node_modules/pkg") (["foo"] ++ "node_modules" :: ["bar"]) = true := by
  refine ⟨by decide, ?_⟩
  exact (isIgnored_anchor_spec ("node_modules/pkg") [] ["foo"] ["bar"]
    ("node_modules") (by decide)).2

/-! ## C3 -/

/-- C3: whatever the state of the ignore file (absent, unreadable, or any
content), every fixed default exclusion pattern is in the loaded rule set,
and any path one of them matches is ignored under that rule set. -/
theorem defaults_always_active (st : GitignoreState) (p : String)
    (hp : p ∈ defaultPatterns) :
    p ∈ loadGitignorePatterns st ∧
    ∀ path, patternMatches p (normalizeSeps path) = true →
      isIgnored path (loadGitignorePatterns st) = true := by
  have hmem : p ∈ loadGitignorePatterns st := by
    cases st with
    | absent => exact List.mem_cons_of_mem _ hp
    | unreadable => exact hp
    | readable c => exact List.mem_append_right _ hp
  refine ⟨hmem, fun path h => ?_⟩
  rw [isIgnored_eq_exists]
  exact ⟨p, hmem, h⟩

/-- Witness for C3: a present custom ignore file that does not list
node_modules still ignores a path inside node_modules. -/
theorem defaults_always_active_witness :
    "node_modules" ∈ loadGitignorePatterns (.readable ("custom\n*.log")) ∧
    isIgnored ("node_modules/pkg/index.js")
      (loadGitignorePatterns (.readable ("custom\n*.log"))) = true := by
  have h := defaults_always_active (.readable ("custom\n*.log")) ("node_modules")
    (by decide)
  exact ⟨h.1, h.2 ("node_modules/pkg/index.js") (by decide)⟩

/-! ## C4 -/

/-- If the scanner stops at a given head entry regardless of what follows
it, then everything listed after that entry is irrelevant to the output of
the directory. -/
theorem scanEntriesF_stop_append (pats : List String) (lvl : Nat)
    (stop : String × FSNode) (rest : List (String × FSNode))
    (H : ∀ f r, scanEntriesF (f + 1) pats lvl (stop :: r) =
      scanEntriesF (f + 1) pats lvl [stop]) :
    ∀ (es : List (String × FSNode)) (fuel : Nat),
      scanEntriesF fuel pats lvl (es ++ stop :: rest) =
        scanEntriesF fuel pats lvl (es ++ [stop]) := by
  intro es
  induction es with
  | nil =>
    intro fuel
    cases fuel with
    | zero => rfl
    | succ f => exact H f rest
  | cons e es ih =>
    intro fuel
    cases fuel with
    | zero => rfl
    | succ f =>
      obtain ⟨name, node⟩ := e
      cases node with
      | statErr => rfl
      | dir derr dents =>
        simp only [List.cons_append, scanEntriesF, List.append_eq]
        rw [ih f]
      | file rerr c =>
        simp only [List.cons_append, scanEntriesF, List.append_eq]
        rw [ih f]

/-- C4 as amended: a failing stat, or a failing content read of a
recognized non-ignored file, is caught at the level of the enclosing
directory listing, so every entry after the failing one in that same
directory is dropped from the output (the output is the one obtained by
cutting the listing right after the failing entry); scanning elsewhere is
unaffected because the cut listing still yields a result rather than an
error. -/
theorem scan_error_truncates_directory (fuel : Nat) (pats : List String)
    (lvl : Nat) (es rest : List (String × FSNode)) (n m c : String)
    (hign : isIgnored m pats = false) (hrec : extRecognized m = true) :
    scanEntriesF fuel pats lvl (es ++ (n, .statErr) :: rest) =
      scanEntriesF fuel pats lvl (es ++ [(n, .statErr)])
    ∧ scanEntriesF fuel pats lvl (es ++ (m, .file true c) :: rest) =
      scanEntriesF fuel pats lvl (es ++ [(m, .file true c)]) := by
  constructor
  · exact scanEntriesF_stop_append pats lvl (n, .statErr) rest
      (fun f r => rfl) es fuel
  · refine scanEntriesF_stop_append pats lvl (m, .file true c) rest
      (fun f r => ?_) es fuel
    simp [scanEntriesF, hign, hrec]

/-- Witness for C4 at a concrete listing with a later sibling. -/
theorem scan_error_truncates_directory_witness :
    isIgnored ("m.py") [] = false ∧ extRecognized ("m.py") = true ∧
    scanEntriesF 7 [] 0
        ([("a", .file false ("x"))] ++ ("b", FSNode.statErr) :: [("z", .file false ("w"))]) =
      scanEntriesF 7 [] 0 ([("a", .file false ("x"))] ++ [("b", FSNode.statErr)]) ∧
    scanEntriesF 7 [] 0
        ([("a", .file false ("x"))] ++ ("m.py", .file true ("q")) :: [("z", .file false ("w"))]) =
      scanEntriesF 7 [] 0 ([("a", .file false ("x"))] ++ [("m.py", .file true ("q"))]) := by
  refine ⟨by decide, by decide, ?_, ?_⟩
  · exact (scan_error_truncates_directory 7 [] 0 [("a", .file false ("x"))]
      [("z", .file false ("w"))] ("b") ("m.py") ("q") (by decide) (by decide)).1
  · exact (scan_error_truncates_directory 7 [] 0 [("a", .file false ("x"))]
      [("z", .file false ("w"))] ("b") ("m.py") ("q") (by decide) (by decide)).2

/-- Counterexample to C4 as stated: in a directory listing a, b, c where
the stat of b fails, the claim says c is still processed and emitted; the
code stops the whole listing at b, so the output contains only the line
for a and no line for c. -/
theorem scan_error_truncates_directory_cex :
    scanDirectoryF 9 [] 0
        (.dir false [("a", .file false ("x")), ("b", FSNode.statErr),
                     ("c", .file false ("y"))]) = "- 📄 a\n" ∧
    strContains
      (scanDirectoryF 9 [] 0
        (.dir false [("a", .file false ("x")), ("b", FSNode.statErr),
                     ("c", .file false ("y"))])) ("- 📄 c") = false := by
  refine ⟨by decide, by decide⟩

/-! ## C5 -/

/-- Appending the empty string on the right. -/
theorem str_append_empty (s : String) : s ++ "" = s := by
  cases s
  show String.mk _ = String.mk _
  simp [String.append]

/-- C5 as amended: when the listing of the root path cannot be read, the
scanner catches the error and contributes an empty file-structure section;
the generation run then completes normally and the output document is
still written, ending with the bare File Structure heading. -/
theorem unreadable_root_still_writes (w : WorkspaceFS)
    (l : List (String × FSNode)) (h : w.root = .dir true l) :
    generateStructure w =
      some ("# Workspace Structure\n\nFiles listed in .gitignore will be excluded.\n\n"
        ++ pkgSection w ++ configSection w ++ "## File Structure\n\n") := by
  unfold generateStructure analyzeWorkspace
  rw [h]
  show some (_ ++ _ ++ _ ++ _ ++ scanDirectoryF _ _ _ (.dir true l)) = _
  rw [show scanDirectoryF (nodeFuel (FSNode.dir true l))
        (loadGitignorePatterns w.gitignore) 0 (.dir true l) = "" from by
      simp [scanDirectoryF]]
  rw [str_append_empty]

/-- Witness for C5 at a concrete workspace with an unreadable root. -/
theorem unreadable_root_still_writes_witness :
    generateStructure
        { root := .dir true [("hidden", .file false ("x"))], gitignore := .absent,
          pkgRaw := some ("\x7b\x7d"), pkgParsed := none,
          requirementsTxt := none, pyprojectToml := none } =
      some ("# Workspace Structure\n\nFiles listed in .gitignore will be excluded.\n\n"
        ++ pkgSection
            { root := .dir true [("hidden", .file false ("x"))], gitignore := .absent,
              pkgRaw := some ("\x7b\x7d"), pkgParsed := none,
              requirementsTxt := none, pyprojectToml := none }
        ++ configSection
            { root := .dir true [("hidden", .file false ("x"))], gitignore := .absent,
              pkgRaw := some ("\x7b\x7d"), pkgParsed := none,
              requirementsTxt := none, pyprojectToml := none }
        ++ "## File Structure\n\n") := by
  exact unreadable_root_still_writes _ [("hidden", .file false ("x"))] rfl

/-- Counterexample to C5 as stated: with an unreadable root the claim says
a fatal condition is surfaced and no output file is written; the code
writes a complete document whose file-structure section is empty. -/
theorem unreadable_root_cex :
    generateStructure
        { root := .dir true [], gitignore := .absent, pkgRaw := none,
          pkgParsed := none, requirementsTxt := none, pyprojectToml := none } =
      some ("# Workspace Structure\n\nFiles listed in .gitignore will be excluded.\n\n## Configuration Files\n\n## File Structure\n\n") ∧
    generateStructure
        { root := .dir true [], gitignore := .absent, pkgRaw := none,
          pkgParsed := none, requirementsTxt := none, pyprojectToml := none } ≠
      none := by
  refine ⟨by decide, by decide⟩

/-! ## C6 -/

/-- No element of the Set spread was already among the seen ones. -/
theorem setDedupA_not_seen :
    ∀ (l : List String) (seen : List String) (x : String),
      x ∈ setDedupA seen l → seen.contains x = false := by
  intro l
  induction l with
  | nil => intro seen x hx; cases hx
  | cons y l ih =>
    intro seen x hx
    unfold setDedupA at hx
    by_cases hy : seen.contains y = true
    · rw [if_pos hy] at hx
      exact ih seen x hx
    · rw [if_neg hy] at hx
      rcases List.mem_cons.mp hx with h | h
      · subst h; exact Bool.eq_false_iff.mpr hy
      · have := ih (y :: seen) x h
        simp only [List.contains_cons, Bool.or_eq_false_iff] at this
        exact this.2

/-- The Set spread has no duplicates. -/
theorem setDedupA_nodup :
    ∀ (l : List String) (seen : List String), (setDedupA seen l).Nodup := by
  intro l
  induction l with
  | nil => intro seen; exact List.nodup_nil
  | cons y l ih =>
    intro seen
    unfold setDedupA
    by_cases hy : seen.contains y = true
    · rw [if_pos hy]; exact ih seen
    · rw [if_neg hy]
      refine List.nodup_cons.mpr ⟨?_, ih (y :: seen)⟩
      intro hmem
      have := setDedupA_not_seen l (y :: seen) y hmem
      simp at this

/-- The Set spread preserves first-seen order: it is a sublist. -/
theorem setDedupA_sublist :
    ∀ (l : List String) (seen : List String), (setDedupA seen l).Sublist l := by
  intro l
  induction l with
  | nil => intro seen; exact List.Sublist.refl _
  | cons y l ih =>
    intro seen
    unfold setDedupA
    by_cases hy : seen.contains y = true
    · rw [if_pos hy]; exact (ih seen).cons _
    · rw [if_neg hy]; exact (ih (y :: seen)).cons₂ _

/-- C6 as amended: in the Python profile the functions and methods lists
are de-duplicated as a Set, keeping first occurrences in first-seen order
(each is a duplicate-free sublist of its raw capture list), but the
imports list is the plain per-name expansion of the raw matches with no
de-duplication pass; C-family fields are not de-duplicated, as the
duplicate output on a repeated function shows. -/
theorem py_dedup_scope (content : String) :
    ((pyAnalyze content).functions.Nodup
      ∧ (pyAnalyze content).functions.Sublist (pyFunctionsRaw content)
      ∧ (pyAnalyze content).methods.Nodup
      ∧ (pyAnalyze content).methods.Sublist (pyMethodsRaw content)
      ∧ (pyAnalyze content).imports = (pyImportsRaw content).flatMap expandImportMatch)
    ∧ (cAnalyze ("function f() \x7b\x7d\nfunction f() \x7b\x7d")).functions = ["f", "f"] := by
  refine ⟨⟨setDedupA_nodup _ _, setDedupA_sublist _ _, setDedupA_nodup _ _,
    setDedupA_sublist _ _, rfl⟩, by decide⟩

/-- Counterexample to C6 as stated: the claim says Python imports are
de-duplicated as a set, but a file importing the same module twice yields
the entry twice. -/
theorem py_imports_not_dedup_cex :
    (pyAnalyze ("import a\nimport a")).imports = ["import a", "import a"] ∧
    ¬ (pyAnalyze ("import a\nimport a")).imports.Nodup := by
  refine ⟨by decide, by decide⟩

/-! ## C7 -/

/-- C7 as amended: an identifier in method syntactic position is recorded
in the methods field exactly when it is not one of the six block-listed
keywords and contains no uppercase letter anywhere.  In particular a
lower-camel-case identifier such as fooBar is excluded, because the
exclusion regex is unanchored and fires on an uppercase letter at any
position, not only on a capitalized first letter. -/
theorem method_filter_scope (content nm : String) :
    nm ∈ (cAnalyze content).methods ↔
      nm ∈ cMethodsRaw content ∧ nm ∉ methodBlocklist ∧
        hasUpperAnywhere nm = false := by
  show nm ∈ (cMethodsRaw content).filter methodKept ↔ _
  rw [List.mem_filter]
  unfold methodKept
  simp [List.elem_eq_mem, List.contains]

/-- Counterexample to C7 as stated: fooBar sits in method syntactic
position (it is among the raw captures) and is neither block-listed nor
capitalized, so the claim says it is recorded; the code records nothing. -/
theorem method_filter_cex :
    cMethodsRaw ("fooBar() \x7b") = ["fooBar"] ∧
    (cAnalyze ("fooBar() \x7b")).methods = [] := by
  refine ⟨by decide, by decide⟩

/-! ## C10 -/

/-- C10: when a Python import match carries an alias, every expanded entry
ends with that alias clause, whatever name it came from; in particular the
comma-separated import with a trailing alias distributes the alias over
both names. -/
theorem alias_distributed (m : Option String × String × Option String)
    (a : String) (hal : m.2.2 = some a) :
    (∀ e ∈ expandImportMatch m, ∃ pre, e = pre ++ " as " ++ strTrim a)
    ∧ (pyAnalyze ("import a, b as c")).imports =
        ["import a as c", "import b as c"] := by
  constructor
  · intro e he
    unfold expandImportMatch at he
    rw [hal] at he
    simp only [List.mem_map] at he
    obtain ⟨name, _, hname⟩ := he
    refine ⟨"import " ++ (match m.1 with
      | some f => strTrim f ++ "."
      | none => "") ++ name, ?_⟩
    rw [← hname]
    simp [String.append_assoc]
  · decide

/-- Witness for C10 at a concrete aliased single-name match. -/
theorem alias_distributed_witness :
    ∃ pre, "import x as al" = pre ++ " as " ++ strTrim ("al") :=
  (alias_distributed (none, "x", some ("al")) ("al") rfl).1
    ("import x as al") (by decide)

/-! ## C8 -/

/-- Totality of the name comparison. -/
theorem strLeB_total : ∀ a b : List Char, strLeB a b = true ∨ strLeB b a = true := by
  intro a
  induction a with
  | nil => intro b; left; rfl
  | cons x xs ih =>
    intro b
    cases b with
    | nil => right; rfl
    | cons y ys =>
      unfold strLeB
      by_cases hxy : x = y
      · subst hxy
        simpa using ih ys
      · have hyx : ¬ y = x := fun h => hxy h.symm
        rw [if_neg hxy, if_neg hyx]
        rcases lt_trichotomy x y with h | h | h
        · left; exact decide_eq_true h
        · exact absurd h hxy
        · right; exact decide_eq_true h

/-- Antisymmetry of the name comparison. -/
theorem strLeB_antisymm :
    ∀ a b : List Char, strLeB a b = true → strLeB b a = true → a = b := by
  intro a
  induction a with
  | nil =>
    intro b _ hba
    cases b with
    | nil => rfl
    | cons y ys => exact absurd hba (by simp [strLeB])
  | cons x xs ih =>
    intro b hab hba
    cases b with
    | nil => exact absurd hab (by simp [strLeB])
    | cons y ys =>
      unfold strLeB at hab hba
      by_cases hxy : x = y
      · subst hxy
        rw [if_pos rfl] at hab hba
        rw [ih ys hab hba]
      · have hyx : ¬ y = x := fun h => hxy h.symm
        rw [if_neg hxy] at hab
        rw [if_neg hyx] at hba
        have h1 : x < y := of_decide_eq_true hab
        have h2 : y < x := of_decide_eq_true hba
        exact absurd (lt_trans h1 h2) (lt_irrefl x)

/-- Transitivity of the name comparison. -/
theorem strLeB_trans :
    ∀ a b c : List Char, strLeB a b = true → strLeB b c = true →
      strLeB a c = true := by
  intro a
  induction a with
  | nil => intro b c _ _; rfl
  | cons x xs ih =>
    intro b c hab hbc
    cases b with
    | nil => exact absurd hab (by simp [strLeB])
    | cons y ys =>
      cases c with
      | nil => exact absurd hbc (by simp [strLeB])
      | cons z zs =>
        unfold strLeB at hab hbc ⊢
        by_cases hxy : x = y
        · subst hxy
          rw [if_pos rfl] at hab
          by_cases hyz : x = z
          · subst hyz
            rw [if_pos rfl] at hbc ⊢
            exact ih ys zs hab hbc
          · rw [if_neg hyz] at hbc ⊢
            exact hbc
        · rw [if_neg hxy] at hab
          have h1 : x < y := of_decide_eq_true hab
          by_cases hyz : y = z
          · subst hyz
            rw [if_neg hxy]
            exact decide_eq_true h1
          · rw [if_neg hyz] at hbc
            have h2 : y < z := of_decide_eq_true hbc
            have h3 : x < z := lt_trans h1 h2
            by_cases hxz : x = z
            · exact absurd (hxz ▸ h3) (lt_irrefl z)
            · rw [if_neg hxz]
              exact decide_eq_true h3

/-- Inserting an entry produces a permutation of pushing it in front. -/
theorem insertEnt_perm (e : String × FSNode) :
    ∀ l : List (String × FSNode), (insertEnt e l).Perm (e :: l) := by
  intro l
  induction l with
  | nil => exact List.Perm.refl _
  | cons f fs ih =>
    unfold insertEnt
    by_cases h : entLe e f = true
    · rw [if_pos h]
    · rw [if_neg h]
      exact (ih.cons f).trans (List.Perm.swap e f fs)

/-- The sorted listing is a permutation of the original listing. -/
theorem sortEnt_perm : ∀ l : List (String × FSNode), (sortEnt l).Perm l := by
  intro l
  induction l with
  | nil => exact List.Perm.refl _
  | cons e es ih => exact (insertEnt_perm e (sortEnt es)).trans (ih.cons e)

/-- Membership in an insertion. -/
theorem mem_insertEnt {x e : String × FSNode} {l : List (String × FSNode)} :
    x ∈ insertEnt e l ↔ x = e ∨ x ∈ l := by
  rw [(insertEnt_perm e l).mem_iff]
  simp

/-- Insertion preserves sortedness by name. -/
theorem insertEnt_sorted (e : String × FSNode) :
    ∀ l : List (String × FSNode),
      List.Pairwise (fun a b => entLe a b = true) l →
      List.Pairwise (fun a b => entLe a b = true) (insertEnt e l) := by
  intro l
  induction l with
  | nil => intro _; exact List.pairwise_singleton _ _
  | cons f fs ih =>
    intro hs
    rcases List.pairwise_cons.mp hs with ⟨hf, hfs⟩
    unfold insertEnt
    by_cases h : entLe e f = true
    · rw [if_pos h]
      refine List.pairwise_cons.mpr ⟨?_, hs⟩
      intro x hx
      rcases List.mem_cons.mp hx with rfl | hx
      · exact h
      · exact strLeB_trans _ _ _ h (hf x hx)
    · rw [if_neg h]
      refine List.pairwise_cons.mpr ⟨?_, ih hfs⟩
      intro x hx
      rcases mem_insertEnt.mp hx with heq | hx
      · rw [heq]
        rcases strLeB_total e.1.data f.1.data with h1 | h1
        · exact absurd h1 h
        · exact h1
      · exact hf x hx

/-- The sorted listing is sorted by name. -/
theorem sortEnt_sorted :
    ∀ l : List (String × FSNode),
      List.Pairwise (fun a b => entLe a b = true) (sortEnt l) := by
  intro l
  induction l with
  | nil => exact List.Pairwise.nil
  | cons e es ih => exact insertEnt_sorted e (sortEnt es) ih

/-- Two name-sorted listings that are permutations of each other and have
duplicate-free names are equal. -/
theorem sorted_perm_nodup_eq :
    ∀ l1 l2 : List (String × FSNode), l1.Perm l2 →
      List.Pairwise (fun a b => entLe a b = true) l1 →
      List.Pairwise (fun a b => entLe a b = true) l2 →
      (l1.map Prod.fst).Nodup → l1 = l2 := by
  intro l1
  induction l1 with
  | nil =>
    intro l2 hp _ _ _
    exact (hp.symm.eq_nil).symm
  | cons a t1 ih =>
    intro l2 hp hs1 hs2 hnd
    cases l2 with
    | nil => exact absurd hp.eq_nil (by simp)
    | cons b t2 =>
      have hab : a = b := by
        have hbmem : b ∈ a :: t1 := hp.mem_iff.mpr (List.mem_cons_self _ _)
        have hamem : a ∈ b :: t2 := hp.mem_iff.mp (List.mem_cons_self _ _)
        rcases List.mem_cons.mp hbmem with h | hbt1
        · exact h.symm
        rcases List.mem_cons.mp hamem with h | hat2
        · exact h
        have h1 : entLe a b = true := (List.pairwise_cons.mp hs1).1 b hbt1
        have h2 : entLe b a = true := (List.pairwise_cons.mp hs2).1 a hat2
        have heq : a.1.data = b.1.data := strLeB_antisymm _ _ h1 h2
        have hname : a.1 = b.1 := by
          cases ha1 : a.1
          cases hb1 : b.1
          rw [ha1, hb1] at heq
          exact congrArg String.mk heq
        exfalso
        have hdup : a.1 ∈ t1.map Prod.fst := by
          rw [hname]
          exact List.mem_map_of_mem Prod.fst hbt1
        exact (List.nodup_cons.mp hnd).1 hdup
      subst hab
      have ht : t1.Perm t2 := hp.cons_inv
      rw [ih t2 ht (List.pairwise_cons.mp hs1).2 (List.pairwise_cons.mp hs2).2
        (List.nodup_cons.mp hnd).2]

/-- Sorting is a function of the listing as a multiset when names are
duplicate-free. -/
theorem sortEnt_canonical (l1 l2 : List (String × FSNode)) (hperm : l1.Perm l2)
    (hnd : (l1.map Prod.fst).Nodup) : sortEnt l1 = sortEnt l2 := by
  refine sorted_perm_nodup_eq _ _ ?_ (sortEnt_sorted l1) (sortEnt_sorted l2) ?_
  · exact (sortEnt_perm l1).trans (hperm.trans (sortEnt_perm l2).symm)
  · exact (((sortEnt_perm l1).map Prod.fst).nodup_iff).mpr hnd

/-- C8: on a directory whose listing has duplicate-free names, the scanner
output does not depend on the order in which the file system enumerates
the listing (so repeated runs over an unchanged snapshot are byte
identical), and the order in which entries are processed and emitted is
the lexicographic order of their names, a permutation of the listing. -/
theorem scan_enumeration_invariant (fuel lvl : Nat) (pats : List String)
    (err : Bool) (l1 l2 : List (String × FSNode)) (hperm : l1.Perm l2)
    (hnd : (l1.map Prod.fst).Nodup) :
    scanDirectoryF fuel pats lvl (.dir err l1) =
      scanDirectoryF fuel pats lvl (.dir err l2)
    ∧ List.Pairwise (fun a b => entLe a b = true) (sortEnt l1)
    ∧ (sortEnt l1).Perm l1 := by
  refine ⟨?_, sortEnt_sorted l1, sortEnt_perm l1⟩
  simp only [scanDirectoryF]
  rw [sortEnt_canonical l1 l2 hperm hnd]

/-- Witness for C8 at a two-element listing enumerated in both orders. -/
theorem scan_enumeration_invariant_witness :
    scanDirectoryF 9 [] 0
        (.dir false [("b", .file false ("y")), ("a", .file false ("x"))]) =
      scanDirectoryF 9 [] 0
        (.dir false [("a", .file false ("x")), ("b", .file false ("y"))]) ∧
    List.Pairwise (fun a b => entLe a b = true)
      (sortEnt [("b", .file false ("y")), ("a", .file false ("x"))]) ∧
    (sortEnt [("b", .file false ("y")), ("a", .file false ("x"))]).Perm
      [("b", .file false ("y")), ("a", .file false ("x"))] :=
  scan_enumeration_invariant 9 0 [] false
    [("b", .file false ("y")), ("a", .file false ("x"))]
    [("a", .file false ("x")), ("b", .file false ("y"))]
    (List.Perm.swap _ _ _) (by decide)

/-! ## C9: lemmas about whitespace-only content -/

/-- Whitespace-only content stays whitespace-only after its head. -/
theorem wsOnly_cons {c : Char} {cs : List Char} (h : wsOnly (c :: cs) = true) :
    isJsSpace c = true ∧ wsOnly cs = true := by
  simpa [wsOnly] using h

/-- Greedy whitespace consumption exhausts whitespace-only content. -/
theorem ws_dropWhile : ∀ {cs : List Char}, wsOnly cs = true →
    cs.dropWhile isJsSpace = [] := by
  intro cs
  induction cs with
  | nil => intro _; rfl
  | cons c cs ih =>
    intro h
    rcases wsOnly_cons h with ⟨hc, hcs⟩
    rw [List.dropWhile_cons_of_pos hc]
    exact ih hcs

/-- No whitespace character starts a JavaScript identifier. -/
theorem jsIdFirst_ws {c : Char} (h : isJsSpace c = true) : jsIdFirst c = false := by
  simp only [isJsSpace, Bool.or_eq_true, beq_iff_eq] at h
  rcases h with (((((((((h | h) | h) | h) | h) | h) | h) | h) | h) | h) <;>
    first
      | (subst h; decide)
      | (have hc : c = '\xa0' := Char.ext h; subst hc; decide)
      | (have hc : c = '\ufeff' := Char.ext h; subst hc; decide)
      | (have hc : c = '\u2028' := Char.ext h; subst hc; decide)
      | (have hc : c = '\u2029' := Char.ext h; subst hc; decide)

/-- No whitespace character starts a Python identifier. -/
theorem pyIdFirst_ws {c : Char} (h : isJsSpace c = true) : pyIdFirst c = false := by
  simp only [isJsSpace, Bool.or_eq_true, beq_iff_eq] at h
  rcases h with (((((((((h | h) | h) | h) | h) | h) | h) | h) | h) | h) <;>
    first
      | (subst h; decide)
      | (have hc : c = '\xa0' := Char.ext h; subst hc; decide)
      | (have hc : c = '\ufeff' := Char.ext h; subst hc; decide)
      | (have hc : c = '\u2028' := Char.ext h; subst hc; decide)
      | (have hc : c = '\u2029' := Char.ext h; subst hc; decide)

/-- No whitespace character is an uppercase letter. -/
theorem isUpper_ws {c : Char} (h : isJsSpace c = true) : c.isUpper = false := by
  simp only [isJsSpace, Bool.or_eq_true, beq_iff_eq] at h
  rcases h with (((((((((h | h) | h) | h) | h) | h) | h) | h) | h) | h) <;>
    first
      | (subst h; decide)
      | (have hc : c = '\xa0' := Char.ext h; subst hc; decide)
      | (have hc : c = '\ufeff' := Char.ext h; subst hc; decide)
      | (have hc : c = '\u2028' := Char.ext h; subst hc; decide)
      | (have hc : c = '\u2029' := Char.ext h; subst hc; decide)

/-- A literal with some non-space character never matches whitespace-only
content. -/
theorem litP_ws_none :
    ∀ (l cs : List Char), l.any (fun c => !isJsSpace c) = true →
      wsOnly cs = true → litP l cs = none := by
  intro l
  induction l with
  | nil => intro cs h _; simp at h
  | cons x ls ih =>
    intro cs hl hcs
    cases cs with
    | nil => rfl
    | cons c cs =>
      rcases wsOnly_cons hcs with ⟨hc, hcs2⟩
      unfold litP
      by_cases hx : isJsSpace x = true
      · have hls : ls.any (fun c => !isJsSpace c) = true := by
          simp only [List.any_cons, hx, Bool.not_true, Bool.false_or] at hl
          exact hl
        by_cases hcx : (c == x) = true
        · rw [if_pos hcx]
          exact ih cs hls hcs2
        · rw [if_neg (by simpa using hcx)]
      · have hcx : (c == x) = false := by
          refine beq_eq_false_iff_ne.mpr ?_
          intro hce
          exact hx (hce ▸ hc)
        rw [hcx]
        simp

/-- An identifier whose first-character class rejects whitespace never
matches whitespace-only content. -/
theorem identP_ws_none (pfirst prest : Char → Bool)
    (hp : ∀ c, isJsSpace c = true → pfirst c = false) :
    ∀ cs : List Char, wsOnly cs = true → identP pfirst prest cs = none := by
  intro cs hcs
  cases cs with
  | nil => rfl
  | cons c cs =>
    rcases wsOnly_cons hcs with ⟨hc, _⟩
    simp only [identP, hp c hc]
    simp

/-- A spaced keyword never matches whitespace-only content. -/
theorem kwSp_ws_none (kw : String) (cs : List Char)
    (hkw : kw.data.any (fun c => !isJsSpace c) = true)
    (hcs : wsOnly cs = true) : kwSp kw cs = none := by
  unfold kwSp
  rw [litP_ws_none kw.data cs hkw hcs]
  rfl

/-- The unanchored scanner finds nothing in whitespace-only content when
its matcher rejects every whitespace-only suffix. -/
theorem scanAllF_ws {α : Type} (tryf : List Char → Option (α × List Char))
    (htry : ∀ cs, wsOnly cs = true → tryf cs = none) :
    ∀ (f : Nat) (cs : List Char), wsOnly cs = true → scanAllF tryf f cs = [] := by
  intro f
  induction f with
  | zero => intro cs _; rfl
  | succ f ih =>
    intro cs hcs
    cases cs with
    | nil => rfl
    | cons c cs =>
      unfold scanAllF
      rw [htry (c :: cs) hcs]
      exact ih cs (wsOnly_cons hcs).2

/-- The line-anchored scanner finds nothing in whitespace-only content when
its matcher rejects every whitespace-only suffix. -/
theorem scanLinesF_ws {α : Type} (tryf : List Char → Option (α × List Char))
    (htry : ∀ cs, wsOnly cs = true → tryf cs = none) :
    ∀ (f : Nat) (b : Bool) (cs : List Char), wsOnly cs = true →
      scanLinesF tryf f b cs = [] := by
  intro f
  induction f with
  | zero => intro b cs _; rfl
  | succ f ih =>
    intro b cs hcs
    cases cs with
    | nil => rfl
    | cons c cs =>
      unfold scanLinesF
      cases b with
      | false => exact ih _ cs (wsOnly_cons hcs).2
      | true =>
        rw [if_pos rfl, htry (c :: cs) hcs]
        exact ih _ cs (wsOnly_cons hcs).2

/-- The Python function matcher rejects whitespace-only content. -/
theorem tryPyFunction_ws {cs : List Char} (hcs : wsOnly cs = true) :
    tryPyFunction cs = none := by
  unfold tryPyFunction
  rw [litP_ws_none (("def").data) cs (by decide) hcs]
  rfl

/-- The Python class matcher rejects whitespace-only content. -/
theorem tryPyClass_ws {cs : List Char} (hcs : wsOnly cs = true) :
    tryPyClass cs = none := by
  unfold tryPyClass
  rw [litP_ws_none (("class").data) cs (by decide) hcs]
  rfl

/-- The Python method matcher rejects whitespace-only content. -/
theorem tryPyMethod_ws {cs : List Char} (hcs : wsOnly cs = true) :
    tryPyMethod cs = none := by
  unfold tryPyMethod
  rw [litP_ws_none (("    def").data) cs (by decide) hcs]
  rfl

/-- The Python import matcher rejects whitespace-only content. -/
theorem tryPyImport_ws {cs : List Char} (hcs : wsOnly cs = true) :
    tryPyImport cs = none := by
  simp [tryPyImport, litP_ws_none (("from").data) cs (by decide) hcs,
    litP_ws_none (("import").data) cs (by decide) hcs]

/-- The TypeScript import matcher rejects whitespace-only content. -/
theorem tryCImport_ws {cs : List Char} (hcs : wsOnly cs = true) :
    tryCImport cs = none := by
  simp [tryCImport, litP_ws_none (("import").data) cs (by decide) hcs]

/-- The inner function alternation rejects whitespace-only content. -/
theorem funInner_ws {cs : List Char} (hcs : wsOnly cs = true) :
    funInner cs = none := by
  simp [funInner, firstSome,
    kwSp_ws_none ("function") cs (by decide) hcs,
    kwSp_ws_none ("const") cs (by decide) hcs,
    kwSp_ws_none ("let") cs (by decide) hcs,
    kwSp_ws_none ("var") cs (by decide) hcs]

/-- The TypeScript function matcher rejects whitespace-only content. -/
theorem tryCFunction_ws {cs : List Char} (hcs : wsOnly cs = true) :
    tryCFunction cs = none := by
  simp [tryCFunction, firstSome, funInner_ws hcs,
    kwSp_ws_none ("export") cs (by decide) hcs,
    kwSp_ws_none ("async") cs (by decide) hcs,
    kwSp_ws_none ("function") cs (by decide) hcs]

/-- The TypeScript class matcher rejects whitespace-only content. -/
theorem tryCClass_ws {cs : List Char} (hcs : wsOnly cs = true) :
    tryCClass cs = none := by
  simp [tryCClass,
    kwSp_ws_none ("export") cs (by decide) hcs,
    kwSp_ws_none ("class") cs (by decide) hcs]

/-- The TypeScript method matcher rejects whitespace-only content. -/
theorem tryCMethod_ws {cs : List Char} (hcs : wsOnly cs = true) :
    tryCMethod cs = none := by
  simp [tryCMethod, firstSome, ws0, ws_dropWhile hcs,
    litP_ws_none (("public").data) cs (by decide) hcs,
    litP_ws_none (("private").data) cs (by decide) hcs,
    litP_ws_none (("protected").data) cs (by decide) hcs,
    kwSp, litP, identP]

/-- The export matcher rejects whitespace-only content. -/
theorem tryCExport_ws {cs : List Char} (hcs : wsOnly cs = true) :
    tryCExport cs = none := by
  unfold tryCExport
  rw [show kwSp ("export") cs = none from
    kwSp_ws_none ("export") cs (by decide) hcs]
  rfl

/-- The component matcher rejects whitespace-only content. -/
theorem tryCComponent_ws {cs : List Char} (hcs : wsOnly cs = true) :
    tryCComponent cs = none := by
  simp [tryCComponent, firstSome,
    kwSp_ws_none ("const") cs (by decide) hcs,
    kwSp_ws_none ("let") cs (by decide) hcs,
    kwSp_ws_none ("var") cs (by decide) hcs,
    kwSp_ws_none ("function") cs (by decide) hcs]

/-- C9 as amended: extraction is a total function of the content (thrown
exceptions have no counterpart), and on empty or whitespace-only content it
returns the all-empty record for every extension; on unbalanced input it
still returns a record, which the counterexample shows need not be empty. -/
theorem extract_ws_empty (content ext : String)
    (hws : wsOnly content.data = true) :
    analyzeFileContent content ext = emptyAnalysis := by
  unfold analyzeFileContent
  split
  · unfold cAnalyze emptyAnalysis
    rw [show cImportsRaw content = [] from
        scanLinesF_ws _ (fun cs h => tryCImport_ws h) _ _ _ hws,
      show cFunctionsRaw content = [] from
        scanAllF_ws _ (fun cs h => tryCFunction_ws h) _ _ hws,
      show cClassesRaw content = [] from
        scanAllF_ws _ (fun cs h => tryCClass_ws h) _ _ hws,
      show cMethodsRaw content = [] from
        scanAllF_ws _ (fun cs h => tryCMethod_ws h) _ _ hws,
      show cExportsRaw content = [] from
        scanLinesF_ws _ (fun cs h => tryCExport_ws h) _ _ _ hws,
      show cComponentsRaw content = [] from
        scanAllF_ws _ (fun cs h => tryCComponent_ws h) _ _ hws]
    rfl
  · split
    · unfold pyAnalyze emptyAnalysis
      rw [show pyImportsRaw content = [] from
          scanLinesF_ws _ (fun cs h => tryPyImport_ws h) _ _ _ hws,
        show pyFunctionsRaw content = [] from
          scanLinesF_ws _ (fun cs h => tryPyFunction_ws h) _ _ _ hws,
        show pyClassesRaw content = [] from
          scanLinesF_ws _ (fun cs h => tryPyClass_ws h) _ _ _ hws,
        show pyMethodsRaw content = [] from
          scanLinesF_ws _ (fun cs h => tryPyMethod_ws h) _ _ _ hws]
      rfl
    · rfl

/-- Witness for C9 on empty and on whitespace-only content. -/
theorem extract_ws_empty_witness :
    analyzeFileContent (" \n\t ") (".ts") = emptyAnalysis ∧
    analyzeFileContent ("") (".py") = emptyAnalysis ∧
    analyzeFileContent ("  ") (".md") = emptyAnalysis :=
  ⟨extract_ws_empty (" \n\t ") (".ts") (by decide),
   extract_ws_empty ("") (".py") (by decide),
   extract_ws_empty ("  ") (".md") (by decide)⟩

/-- Counterexample to C9 as stated: an input with an unbalanced
parenthesis on which extraction returns a record that is not all-empty;
the claim asserts all six fields are empty on such inputs. -/
theorem extract_unbalanced_cex :
    parenBalanced ("def f(x:") = false ∧
    (analyzeFileContent ("def f(x:") (".py")).functions = ["f"] ∧
    analyzeFileContent ("def f(x:") (".py") ≠ emptyAnalysis := by
  refine ⟨by decide, by decide, by decide⟩

end ProjectAnalyzer
